import Mathlib

/-!
Verification of the harmony long-range sync core.

This file is a shallow embedding, in Lean 4, of the parts of the
repository that the specification's claims talk about:

* `p2p/stream/common/requestmanager/requestmanager.go` — the stream
  request manager (streams / available / pendings maps, delivery
  validation, cancellation, stream removal, request-id generation);
* `api/service/stagedstreamsync/staged_stream_sync.go` — the staged
  sync engine (`Run`, `revertStage`, the revert bookkeeping, cleanup);
* the Bodies stage (`Exec`, `runDownloadLoop`, `runBlockWorker`,
  `redownloadBadBlock`);
* `api/service/stagedsync/stage_finish.go` — the finish stage.

Go pointers are embedded as arena indices (requests and streams live in
arenas; the maps hold indices), Go maps as association lists, machine
integers as `Nat`, fallible calls as `Except`/oracle fields of an
environment record, and goroutine panics as an explicit `panic`
constructor of the result type, kept distinct from an error return.
External collaborators (database transactions, the transport, the RNG)
are oracles supplied as explicit parameters, so every definition stays
executable and every concrete run can be evaluated by `decide`/`rfl`.
-/

namespace HarmonySync

/-! ## Association-list helpers

`SafeMap` in the Go source is an ordinary map guarded by a mutex; the
event loop is its only mutator, so it is embedded as an association
list with unique keys. -/

/-- Look up a key in an association list (Go `map.Get`). -/
def lookupA : List (Nat × Nat) → Nat → Option Nat
  | [], _ => none
  | (k, v) :: t, k' => if k = k' then some v else lookupA t k'

/-- Remove a key from an association list (Go `map.Delete`). -/
def eraseKeyA (l : List (Nat × Nat)) (k : Nat) : List (Nat × Nat) :=
  l.filter (fun p => p.1 ≠ k)

/-- Overwrite a key in an association list (Go `map.Set`). -/
def setKeyA (l : List (Nat × Nat)) (k v : Nat) : List (Nat × Nat) :=
  (k, v) :: eraseKeyA l k

/-- Insert an element into a list used as a set (Go `set[k] = struct{}{}`). -/
def setInsert (l : List Nat) (k : Nat) : List Nat :=
  if k ∈ l then l else k :: l

theorem lookupA_eq_none_iff (l : List (Nat × Nat)) (k : Nat) :
    lookupA l k = none ↔ ∀ p ∈ l, p.1 ≠ k := by
  induction l with
  | nil => simp [lookupA]
  | cons h t ih =>
    obtain ⟨hk, hv⟩ := h
    by_cases hkk : hk = k <;> simp [lookupA, hkk, ih]

theorem eraseKeyA_eq_self (l : List (Nat × Nat)) (k : Nat)
    (h : lookupA l k = none) : eraseKeyA l k = l := by
  rw [lookupA_eq_none_iff] at h
  exact List.filter_eq_self.2 (fun p hp => by simpa using h p hp)

theorem mem_eraseKeyA {l : List (Nat × Nat)} {k : Nat} {p : Nat × Nat} :
    p ∈ eraseKeyA l k ↔ p ∈ l ∧ p.1 ≠ k := by
  simp [eraseKeyA]

/-! ## Stream request manager (`requestmanager.go`)

A `request` carries a generated id, a pointer to its owning stream
while in flight and a done flag; a `stream` wraps the transport stream
(identified by its stream id) and its currently assigned request.
Pointers become arena indices: `RMState.reqObjs` and
`RMState.streamObjs` are the arenas, `streams`/`pendings` map stream
ids / request ids to arena indices, `available` is a set of stream
ids, `waitHigh`/`waitLow` are the two waiting queues holding request
arena indices. -/

/-- The manager-internal `request` struct: generated request id, owning
stream (arena index of the stream object) and done flag. -/
structure ReqObj where
  rid : Nat
  owner : Option Nat
  done : Bool
deriving DecidableEq, Repr

/-- The manager-internal `stream` struct: transport stream id and the
currently assigned pending request (arena index), at most one. -/
structure StreamObj where
  sid : Nat
  req : Option Nat
deriving DecidableEq, Repr

/-- State owned by the request-manager event loop. -/
structure RMState where
  reqObjs : List ReqObj
  streamObjs : List StreamObj
  streams : List (Nat × Nat)
  available : List Nat
  pendings : List (Nat × Nat)
  waitHigh : List Nat
  waitLow : List Nat
deriving DecidableEq, Repr

/-- Dereference a request pointer (arena index). Out-of-arena indices
never occur in states produced by the embedded operations. -/
def reqAt (s : RMState) (a : Nat) : ReqObj :=
  (s.reqObjs.get? a).getD ⟨0, none, false⟩

/-- Dereference a stream pointer (arena index). -/
def streamAt (s : RMState) (a : Nat) : StreamObj :=
  (s.streamObjs.get? a).getD ⟨0, none⟩

/-- `genReqID`: draw candidate ids from the RNG tape until one is not a
key of `pendings`.  The Go loop draws from `sttypes.GenReqID()`; the
tape is the sequence of RNG outputs, and an exhausted tape corresponds
to a run of the loop that has not yet terminated. -/
def genReqIDFrom : List Nat → List (Nat × Nat) → Option Nat
  | [], _ => none
  | r :: rest, p => if (lookupA p r).isSome then genReqIDFrom rest p else some r

/-- `doneWithResponse`: mark the request done (the one-shot response
channel send and `doneC` close have no further effect on manager
state). -/
def doneWithResponse (s : RMState) (ra : Nat) : RMState :=
  { s with reqObjs := s.reqObjs.set ra { reqAt s ra with done := true } }

/-- `addPendingRequest(req, st)`: generate a fresh request id, record
ownership both ways (`req.owner = st`, `st.req = req`), remove the
stream from `available` and store the request in `pendings`.  `none`
when the RNG tape is exhausted (the Go loop would still be spinning). -/
def addPendingRequest (s : RMState) (ra sa : Nat) (tape : List Nat) :
    Option RMState :=
  match genReqIDFrom tape s.pendings with
  | none => none
  | some rid =>
    some { s with
      reqObjs := s.reqObjs.set ra { reqAt s ra with rid := rid, owner := some sa },
      streamObjs := s.streamObjs.set sa { streamAt s sa with req := some ra },
      available := s.available.filter (fun x => x ≠ (streamAt s sa).sid),
      pendings := setKeyA s.pendings rid ra }

/-- `removePendingRequest(req)`: no-op unless `req.ReqID()` is a key of
`pendings`; otherwise delete that key and, when the request has an
owner, clear the owner's request pointer and return the owner to
`available`. -/
def removePendingRequest (s : RMState) (ra : Nat) : RMState :=
  match lookupA s.pendings (reqAt s ra).rid with
  | none => s
  | some _ =>
    match (reqAt s ra).owner with
    | none => { s with pendings := eraseKeyA s.pendings (reqAt s ra).rid }
    | some oa =>
      { s with
        pendings := eraseKeyA s.pendings (reqAt s ra).rid,
        streamObjs := s.streamObjs.set oa { streamAt s oa with req := none },
        available := setInsert s.available (streamAt s oa).sid }

/-- `handleCancelRequest`: remove the request from the waiting queues,
remove it from `pendings` (returning the owner to `available` when in
flight) and signal the caller with the cancellation error. -/
def handleCancelRequest (s : RMState) (ra : Nat) : RMState :=
  let s1 : RMState :=
    { s with waitHigh := s.waitHigh.filter (fun x => x ≠ ra),
             waitLow := s.waitLow.filter (fun x => x ≠ ra) }
  let s2 := removePendingRequest s1 ra
  doneWithResponse s2 ra

/-- `removeStream(st)`: delete the stream from `available` and
`streams`, clear its pending request pointer and, when a request was in
flight, signal it `stream removed`.  The entry of that request in
`pendings` is NOT deleted by the source. -/
def removeStream (s : RMState) (sa : Nat) : RMState × Option Nat :=
  let s2 : RMState :=
    { s with available := s.available.filter (fun x => x ≠ (streamAt s sa).sid),
             streams := eraseKeyA s.streams (streamAt s sa).sid,
             streamObjs := s.streamObjs.set sa { streamAt s sa with req := none } }
  match (streamAt s sa).req with
  | some ra => (doneWithResponse s2 ra, some ra)
  | none => (s2, none)

/-- `addNewStream(st)`: allocate a stream object and insert the stream
into `streams` and `available`. -/
def addNewStream (s : RMState) (sid : Nat) : RMState :=
  let addr := s.streamObjs.length
  { s with streamObjs := s.streamObjs ++ [⟨sid, none⟩],
           streams := setKeyA s.streams sid addr,
           available := setInsert s.available sid }

/-- `handleNewRequest` on the event loop: the request object was
allocated by `doRequestAsync`; push it onto the low-priority waiting
queue.  (The queue bound is not modelled; the claims under study do not
exercise `QueueFull`.) -/
def handleNewRequest (s : RMState) : RMState × Nat :=
  let addr := s.reqObjs.length
  ({ s with reqObjs := s.reqObjs ++ [⟨0, none, false⟩],
            waitLow := s.waitLow ++ [addr] }, addr)

/-- A response frame handed to `DeliverResponse`: serving stream id,
response request id, and whether the frame carries an error. -/
structure ResponseData where
  stID : Nat
  rid : Nat
  isErr : Bool
deriving DecidableEq, Repr

/-- `validateDelivery`: the frame must be error-free, the stream must
still exist, `pendings[resp.ReqID()]` must exist, its owner must be the
delivering stream, and the stream's current request id must equal the
response's request id. -/
def validateDeliveryOk (s : RMState) (d : ResponseData) : Bool :=
  if d.isErr then false
  else
    match lookupA s.streams d.stID with
    | none => false
    | some sa =>
      match lookupA s.pendings d.rid with
      | none => false
      | some ra =>
        match (reqAt s ra).owner with
        | none => false
        | some oa =>
          if (streamAt s oa).sid ≠ d.stID then false
          else
            match (streamAt s sa).req with
            | none => false
            | some ra2 => (reqAt s ra2).rid == d.rid

/-- `handleDeliverData`: validate; on failure drop the frame (no state
change, nobody signalled); on success signal the pending request with
the response and remove it from `pendings`.  The second component is
the arena index of the request that was signalled, if any. -/
def handleDeliverData (s : RMState) (d : ResponseData) :
    RMState × Option Nat :=
  if validateDeliveryOk s d then
    match lookupA s.pendings d.rid with
    | some ra => (removePendingRequest (doneWithResponse s ra) ra, some ra)
    | none => (s, none)
  else (s, none)

/-- The owner stream id of a request, read through the arena (Go
`req.owner.ID()`), `none` when `req.owner == nil`. -/
def ownerSid (s : RMState) (ra : Nat) : Option Nat :=
  (reqAt s ra).owner.map (fun oa => (streamAt s oa).sid)

/-- The request id currently assigned to a stream, read through the
arena (Go `st.req.ReqID()`), `none` when `st.req == nil`. -/
def streamReqId (s : RMState) (sa : Nat) : Option Nat :=
  (streamAt s sa).req.map (fun ra => (reqAt s ra).rid)

/-! ### The pendings/ownership invariant (claim C1) -/

/-- A request object (by arena index) is a value of the `pendings` map. -/
def pendingsHas (s : RMState) (ra : Nat) : Bool :=
  s.pendings.any (fun p => p.2 == ra)

/-- The request's owner is non-nil and the owner's request pointer
points back to this same request object (pointer chasing through the
arenas, `false` on any nil pointer). -/
def backptr (s : RMState) (ra : Nat) : Bool :=
  (((s.reqObjs.get? ra).bind (fun r => r.owner)).bind
    (fun oa => (s.streamObjs.get? oa).map
      (fun st => st.req == some ra))).getD false

/-- The claimed invariant: a request is in `pendings` iff its owner is
non-nil and that owner's request pointer equals this request. -/
def pendInv (s : RMState) : Prop :=
  ∀ ra : Nat, pendingsHas s ra = backptr s ra

instance (s : RMState) : Decidable (pendInv s) := by
  have h : pendInv s ↔
      ((List.range s.reqObjs.length).all
          (fun ra => pendingsHas s ra == backptr s ra)
        ∧ s.pendings.all (fun p => p.2 < s.reqObjs.length)) := by
    constructor
    · intro hp
      refine ⟨List.all_eq_true.2 (fun ra _ => by simp [hp ra]), ?_⟩
      refine List.all_eq_true.2 (fun p hp' => ?_)
      by_contra hlen
      have h1 : pendingsHas s p.2 = true :=
        List.any_eq_true.2 ⟨p, hp', by simp⟩
      have h2 : backptr s p.2 = false := by
        have h3 : s.reqObjs.get? p.2 = none :=
          List.get?_eq_none.2 (by simpa using Nat.le_of_not_lt (by simpa using hlen))
        rw [List.get?_eq_getElem?] at h3
        simp [backptr, h3]
      rw [hp p.2] at h1
      simp [h2] at h1
    · rintro ⟨hall, hbound⟩ ra
      by_cases hra : ra < s.reqObjs.length
      · have := List.all_eq_true.1 hall ra (List.mem_range.2 hra)
        simpa using this
      · have h2 : backptr s ra = false := by
          have h3 : s.reqObjs.get? ra = none :=
            List.get?_eq_none.2 (Nat.le_of_not_lt hra)
          rw [List.get?_eq_getElem?] at h3
          simp [backptr, h3]
        have h1 : pendingsHas s ra = false := by
          by_contra h
          obtain ⟨p, hp', hpe⟩ :=
            List.any_eq_true.1 (Bool.of_not_eq_false h)
          have := List.all_eq_true.1 hbound p hp'
          have hpe' : p.2 = ra := by simpa using hpe
          exact hra (hpe' ▸ (by simpa using this))
        rw [h1, h2]
  exact decidable_of_iff _ h.symm

/-- Well-formedness of the `pendings` map, maintained by the event
loop: keys are unique (it is a map) and each entry maps a request id to
a request object in the arena carrying exactly that id. -/
def pendWF (s : RMState) : Prop :=
  (s.pendings.map Prod.fst).Nodup
    ∧ ∀ p ∈ s.pendings,
        p.2 < s.reqObjs.length ∧ (reqAt s p.2).rid = p.1

instance (s : RMState) : Decidable (pendWF s) := by
  unfold pendWF
  exact instDecidableAnd

/-! ### Supporting list lemmas -/

theorem lookupA_mem {l : List (Nat × Nat)} {k v : Nat}
    (h : lookupA l k = some v) : (k, v) ∈ l := by
  induction l with
  | nil => simp [lookupA] at h
  | cons p t ih =>
    obtain ⟨pk, pv⟩ := p
    by_cases hk : pk = k
    · subst hk
      simp [lookupA] at h
      simp [h]
    · rw [lookupA, if_neg hk] at h
      exact List.mem_cons_of_mem _ (ih h)

theorem nodup_keys_val_eq {l : List (Nat × Nat)}
    (h : (l.map Prod.fst).Nodup) {k v v' : Nat}
    (h1 : (k, v) ∈ l) (h2 : (k, v') ∈ l) : v = v' := by
  induction l with
  | nil => simp at h1
  | cons p t ih =>
    rw [List.map_cons, List.nodup_cons] at h
    rcases List.mem_cons.1 h1 with he1 | ht1 <;>
      rcases List.mem_cons.1 h2 with he2 | ht2
    · exact congrArg Prod.snd (he1.trans he2.symm)
    · exfalso
      apply h.1
      rw [← he1]
      exact List.mem_map.2 ⟨(k, v'), ht2, rfl⟩
    · exfalso
      apply h.1
      rw [← he2]
      exact List.mem_map.2 ⟨(k, v), ht1, rfl⟩
    · exact ih h.2 ht1 ht2

theorem get?_set_same {α : Type} (l : List α) (i : Nat) (a : α)
    (h : i < l.length) : (l.set i a).get? i = some a := by
  rw [List.get?_eq_getElem?]
  exact List.getElem?_set_eq_of_lt a h

theorem get?_set_other {α : Type} (l : List α) (i j : Nat) (a : α)
    (h : i ≠ j) : (l.set i a).get? j = l.get? j := by
  rw [List.get?_eq_getElem?, List.get?_eq_getElem?]
  exact List.getElem?_set_ne h

/-! ### Claim C8: request-id generation avoids pending ids -/

/-- C8. `genReqID` returns an id that is not currently a key of
`pendings`, and it is the first candidate on the RNG tape with that
property: every earlier candidate is a pending key. -/
theorem c8_genReqID_first_unused (tape : List Nat) (p : List (Nat × Nat))
    (r : Nat) (h : genReqIDFrom tape p = some r) :
    lookupA p r = none ∧
      ∃ pre post, tape = pre ++ r :: post ∧
        ∀ x ∈ pre, (lookupA p x).isSome = true := by
  induction tape with
  | nil => simp [genReqIDFrom] at h
  | cons a t ih =>
    by_cases ha : (lookupA p a).isSome
    · rw [genReqIDFrom, if_pos ha] at h
      obtain ⟨h1, pre, post, he, hall⟩ := ih h
      refine ⟨h1, a :: pre, post, by simp [he], ?_⟩
      intro x hx
      rcases List.mem_cons.1 hx with rfl | hx'
      · exact ha
      · exact hall x hx'
    · rw [genReqIDFrom, if_neg ha] at h
      obtain rfl : a = r := by simpa using h
      exact ⟨Option.not_isSome_iff_eq_none.1 ha, [], t, rfl, by simp⟩

/-- Witness for C8, the spec's scenario S4: `pendings` holds ids
`{1,2,3}`, the RNG yields `1,2,3,4`; the generated id is `4`, it is
unused, and candidates `1,2,3` were all pending. -/
theorem c8_genReqID_first_unused_witness :
    genReqIDFrom [1, 2, 3, 4] [(1, 10), (2, 11), (3, 12)] = some 4 ∧
      (lookupA [(1, 10), (2, 11), (3, 12)] 4 = none ∧
        ∃ pre post, ([1, 2, 3, 4] : List Nat) = pre ++ 4 :: post ∧
          ∀ x ∈ pre, (lookupA [(1, 10), (2, 11), (3, 12)] x).isSome = true) :=
  ⟨by decide,
    c8_genReqID_first_unused [1, 2, 3, 4] [(1, 10), (2, 11), (3, 12)] 4
      (by decide)⟩

/-! ### Claim C3: stale deliveries are dropped without state change -/

/-- C3. If the delivering stream is absent from `streams`, or
`pendings[resp.req_id]` is absent, or the pending request's owner is
nil or owned by a different stream, or the stream's current request id
differs from the response's request id, then `handleDeliverData` drops
the delivery: no request is signalled and the manager state is
returned unchanged (this covers a response arriving for a request that
was already cancelled). -/
theorem c3_stale_delivery_dropped (s : RMState) (d : ResponseData)
    (h : lookupA s.streams d.stID = none
        ∨ lookupA s.pendings d.rid = none
        ∨ (∃ ra, lookupA s.pendings d.rid = some ra
            ∧ ownerSid s ra ≠ some d.stID)
        ∨ (∃ sa, lookupA s.streams d.stID = some sa
            ∧ streamReqId s sa ≠ some d.rid)) :
    handleDeliverData s d = (s, none) := by
  have hv : validateDeliveryOk s d = false := by
    by_cases he : d.isErr
    · simp [validateDeliveryOk, he]
    · rcases h with h1 | h1 | ⟨ra, hra, how⟩ | ⟨sa, hsa, hsr⟩
      · simp [validateDeliveryOk, he, h1]
      · cases hs : lookupA s.streams d.stID with
        | none => simp [validateDeliveryOk, he, hs]
        | some sa => simp [validateDeliveryOk, he, hs, h1]
      · cases hs : lookupA s.streams d.stID with
        | none => simp [validateDeliveryOk, he, hs]
        | some sa =>
          cases how2 : (reqAt s ra).owner with
          | none => simp [validateDeliveryOk, he, hs, hra, how2]
          | some oa =>
            have hne : (streamAt s oa).sid ≠ d.stID := fun hc =>
              how (by rw [ownerSid, how2, Option.map_some', hc])
            simp [validateDeliveryOk, he, hs, hra, how2, hne]
      · cases hp : lookupA s.pendings d.rid with
        | none => simp [validateDeliveryOk, he, hsa, hp]
        | some ra =>
          cases how2 : (reqAt s ra).owner with
          | none => simp [validateDeliveryOk, he, hsa, hp, how2]
          | some oa =>
            by_cases hsid : (streamAt s oa).sid = d.stID
            · cases hq : (streamAt s sa).req with
              | none => simp [validateDeliveryOk, he, hsa, hp, how2, hsid, hq]
              | some ra2 =>
                have hner : (reqAt s ra2).rid ≠ d.rid := fun hc =>
                  hsr (by rw [streamReqId, hq, Option.map_some', hc])
                simp [validateDeliveryOk, he, hsa, hp, how2, hsid, hq, hner]
            · simp [validateDeliveryOk, he, hsa, hp, how2, hsid]
  unfold handleDeliverData
  rw [hv]
  simp

/-- Witness for C3, the spec's scenario S5: a request with id 7 was
cancelled (so `pendings` is empty again and its former owner stream 1
is available with no assigned request); the late delivery of id 7 from
stream 1 is dropped with no state change and no signal. -/
theorem c3_stale_delivery_dropped_witness :
    handleDeliverData
      ⟨[⟨7, none, true⟩], [⟨1, none⟩], [(1, 0)], [1], [], [], []⟩
      ⟨1, 7, false⟩
      = (⟨[⟨7, none, true⟩], [⟨1, none⟩], [(1, 0)], [1], [], [], []⟩, none) :=
  c3_stale_delivery_dropped _ _ (Or.inr (Or.inl (by decide)))

/-! ### Claim C1: the pendings/ownership invariant -/

theorem genReqIDFrom_fresh {tape : List Nat} {p : List (Nat × Nat)} {r : Nat}
    (h : genReqIDFrom tape p = some r) : lookupA p r = none := by
  induction tape with
  | nil => simp [genReqIDFrom] at h
  | cons a t ih =>
    by_cases ha : (lookupA p a).isSome
    · rw [genReqIDFrom, if_pos ha] at h
      exact ih h
    · rw [genReqIDFrom, if_neg ha] at h
      obtain rfl : a = r := by simpa using h
      exact Option.not_isSome_iff_eq_none.1 ha

theorem get?_some_lt {α : Type} {l : List α} {i : Nat} {a : α}
    (h : l.get? i = some a) : i < l.length := by
  by_contra hc
  rw [List.get?_eq_none.2 (Nat.le_of_not_lt hc)] at h
  exact absurd h (by simp)

/-- Marking a request done changes neither `pendings` membership nor
the ownership back-pointers, so it preserves the invariant. -/
theorem done_preserves_pendInv (s : RMState) (ra : Nat)
    (hra : ra < s.reqObjs.length) (h : pendInv s) :
    pendInv (doneWithResponse s ra) := by
  intro x
  have hbp : backptr (doneWithResponse s ra) x = backptr s x := by
    simp only [backptr]
    dsimp only [doneWithResponse]
    by_cases hx : x = ra
    · subst hx
      rw [get?_set_same _ _ _ hra]
      cases hgx : s.reqObjs.get? x with
      | none => rw [List.get?_eq_none] at hgx; omega
      | some r =>
        have hr : reqAt s x = r := by rw [reqAt, hgx]; rfl
        simp [hr]
    · rw [get?_set_other _ _ _ _ (fun hc => hx hc.symm)]
  have hph : pendingsHas (doneWithResponse s ra) x = pendingsHas s x := rfl
  rw [hph, hbp]
  exact h x

/-- Core of the `addPendingRequest` preservation argument, stated over
the components of the updated state. -/
theorem pendInv_add_core (s : RMState) (ra sa rid : Nat) (S : RMState)
    (hreq : S.reqObjs
      = s.reqObjs.set ra { reqAt s ra with rid := rid, owner := some sa })
    (hstr : S.streamObjs
      = s.streamObjs.set sa { streamAt s sa with req := some ra })
    (hpnd : S.pendings = (rid, ra) :: s.pendings)
    (hInv : pendInv s)
    (hra : ra < s.reqObjs.length) (hsa : sa < s.streamObjs.length)
    (hfree : (streamAt s sa).req = none) : pendInv S := by
  intro x
  have hph : pendingsHas S x = ((ra == x) || pendingsHas s x) := by
    rw [pendingsHas, hpnd]
    simp [pendingsHas]
  by_cases hx : x = ra
  · subst hx
    rw [hph]
    have h1 : (x == x) = true := by simp
    rw [h1, Bool.true_or]
    rw [backptr, hreq, hstr, get?_set_same _ _ _ hra]
    simp [get?_set_same _ _ _ hsa, List.getElem?_set_eq_of_lt _ hsa]
  · have hxr : (ra == x) = false := by
      simp only [beq_eq_false_iff_ne, ne_eq]
      exact fun hc => hx hc.symm
    rw [hph, hxr, Bool.false_or]
    have hbp : backptr S x = backptr s x := by
      rw [backptr, backptr, hreq, hstr]
      rw [get?_set_other _ _ _ _ (fun hc => hx hc.symm)]
      cases hgx : s.reqObjs.get? x with
      | none => rfl
      | some r =>
        simp only [Option.some_bind]
        cases hro : r.owner with
        | none => rfl
        | some oa =>
          simp only [Option.some_bind]
          by_cases hoa : oa = sa
          · subst hoa
            rw [get?_set_same _ _ _ hsa]
            cases hgs : s.streamObjs.get? oa with
            | none => rw [List.get?_eq_none] at hgs; omega
            | some st =>
              have hstA : streamAt s oa = st := by rw [streamAt, hgs]; rfl
              have hstreq : st.req = none := by
                have h2 := hfree
                rw [hstA] at h2
                exact h2
              simp [hstA, hstreq, hxr]
          · rw [get?_set_other _ _ _ _ (fun hc => hoa hc.symm)]
    rw [hbp]
    exact hInv x

/-- `addPendingRequest` preserves the invariant, under the conditions
the event loop guarantees at its only call site: the stream was picked
by `pickAvailableStream` (so it has no assigned request) and the
request was popped from the waiting queues (so it is not pending). -/
theorem addPending_preserves_pendInv (s : RMState) (ra sa : Nat)
    (tape : List Nat) (s' : RMState) (hInv : pendInv s)
    (hra : ra < s.reqObjs.length) (hsa : sa < s.streamObjs.length)
    (hfree : (streamAt s sa).req = none)
    (hadd : addPendingRequest s ra sa tape = some s') : pendInv s' := by
  cases hg : genReqIDFrom tape s.pendings with
  | none =>
    unfold addPendingRequest at hadd
    rw [hg] at hadd
    exact absurd hadd (by simp)
  | some rid =>
    have hfresh : lookupA s.pendings rid = none := genReqIDFrom_fresh hg
    unfold addPendingRequest at hadd
    rw [hg] at hadd
    simp only [Option.some.injEq] at hadd
    subst hadd
    have hpe : setKeyA s.pendings rid ra = (rid, ra) :: s.pendings := by
      rw [setKeyA, eraseKeyA_eq_self _ _ hfresh]
    exact pendInv_add_core s ra sa rid _ rfl rfl hpe hInv hra hsa hfree

/-- Erasing the unique entry keyed `rid` (whose value is `ra`) from a
well-formed pendings list removes exactly the requests at `ra`. -/
theorem any_eraseKey_eq (l : List (Nat × Nat)) (rid ra : Nat)
    (hnd : (l.map Prod.fst).Nodup)
    (hmem : (rid, ra) ∈ l)
    (hcons : ∀ p ∈ l, p.2 = ra → p.1 = rid) (x : Nat) :
    (eraseKeyA l rid).any (fun p => p.2 == x)
      = if x = ra then false else l.any (fun p => p.2 == x) := by
  by_cases hx : x = ra
  · subst hx
    rw [if_pos rfl]
    rw [List.any_eq_false]
    intro p hp
    rw [mem_eraseKeyA] at hp
    intro hpe
    exact hp.2 (hcons p hp.1 (by simpa using hpe))
  · rw [if_neg hx]
    cases hany : l.any (fun p => p.2 == x) with
    | false =>
      rw [List.any_eq_false] at hany ⊢
      intro p hp
      exact hany p (mem_eraseKeyA.1 hp).1
    | true =>
      rw [List.any_eq_true] at hany ⊢
      obtain ⟨p, hp, hpe⟩ := hany
      refine ⟨p, mem_eraseKeyA.2 ⟨hp, ?_⟩, hpe⟩
      intro hp1
      have hpx : p.2 = x := by simpa using hpe
      have hpra : p.2 = ra := by
        have hmem2 : (rid, p.2) ∈ l := by
          have : p = (rid, p.2) := by
            rw [← hp1]
          rw [← this]
          exact hp
        exact nodup_keys_val_eq hnd hmem2 hmem
      exact hx (hpx ▸ hpra)

/-- Core of the `removePendingRequest` preservation argument, stated
over the components of the updated state: the erased request's former
owner has its request pointer cleared, everything else is untouched. -/
theorem pendInv_remove_core (s : RMState) (ra oa : Nat) (st : StreamObj)
    (S : RMState)
    (hgs : s.streamObjs.get? oa = some st)
    (hstreq : st.req = some ra)
    (how : (s.reqObjs.get? ra).bind (fun r => r.owner) = some oa)
    (hreq : S.reqObjs = s.reqObjs)
    (hstr : S.streamObjs = s.streamObjs.set oa { st with req := none })
    (hpnd : ∀ x, pendingsHas S x
      = if x = ra then false else pendingsHas s x)
    (hInv : pendInv s) : pendInv S := by
  have hlt : oa < s.streamObjs.length := get?_some_lt hgs
  intro x
  rw [hpnd x]
  by_cases hx : x = ra
  · subst hx
    rw [if_pos rfl]
    rw [backptr, hreq, hstr]
    cases hgx : s.reqObjs.get? x with
    | none => rfl
    | some r =>
      simp only [Option.some_bind]
      rw [hgx] at how
      simp only [Option.some_bind] at how
      cases hro : r.owner with
      | none => rw [hro] at how; simp at how
      | some oa2 =>
        rw [hro] at how
        obtain rfl : oa2 = oa := by simpa using how
        simp only [Option.some_bind]
        rw [get?_set_same _ _ _ hlt]
        simp
  · rw [if_neg hx]
    have hbp : backptr S x = backptr s x := by
      rw [backptr, backptr, hreq, hstr]
      cases hgx : s.reqObjs.get? x with
      | none => rfl
      | some r =>
        simp only [Option.some_bind]
        cases hro : r.owner with
        | none => rfl
        | some oa2 =>
          simp only [Option.some_bind]
          by_cases hoa : oa2 = oa
          · subst hoa
            rw [get?_set_same _ _ _ hlt, hgs]
            have hxr : (ra == x) = false := by
              simp only [beq_eq_false_iff_ne, ne_eq]
              exact fun hc => hx hc.symm
            simp [hstreq, hxr]
          · rw [get?_set_other _ _ _ _ (fun hc => hoa hc.symm)]
    rw [hbp]
    exact hInv x

/-- `removePendingRequest` preserves the invariant on a well-formed
state, provided the request's id does not collide with a different
pending request's id (which `genReqID` freshness guarantees for every
request that ever entered `pendings`). -/
theorem removePending_preserves_pendInv (s : RMState) (ra : Nat)
    (hWF : pendWF s) (hInv : pendInv s)
    (hkey : ∀ a, lookupA s.pendings (reqAt s ra).rid = some a → a = ra) :
    pendInv (removePendingRequest s ra) := by
  cases hl : lookupA s.pendings (reqAt s ra).rid with
  | none =>
    unfold removePendingRequest
    rw [hl]
    exact hInv
  | some a0 =>
    obtain rfl : a0 = ra := hkey a0 hl
    have hmem : ((reqAt s a0).rid, a0) ∈ s.pendings := lookupA_mem hl
    have hpra : pendingsHas s a0 = true :=
      List.any_eq_true.2 ⟨_, hmem, by simp⟩
    have hbp := hpra
    rw [hInv a0] at hbp
    rw [backptr] at hbp
    cases hgx : s.reqObjs.get? a0 with
    | none => rw [hgx] at hbp; simp at hbp
    | some r =>
      rw [hgx] at hbp
      simp only [Option.some_bind] at hbp
      have hr : reqAt s a0 = r := by rw [reqAt, hgx]; rfl
      cases hro : r.owner with
      | none => rw [hro] at hbp; simp at hbp
      | some oa =>
        rw [hro] at hbp
        simp only [Option.some_bind] at hbp
        cases hgs : s.streamObjs.get? oa with
        | none => rw [hgs] at hbp; simp at hbp
        | some st =>
          rw [hgs] at hbp
          have hstreq : st.req = some a0 := by simpa using hbp
          have hstA : streamAt s oa = st := by rw [streamAt, hgs]; rfl
          have hl2 : lookupA s.pendings r.rid = some a0 := by
            rw [← hr]
            exact hl
          unfold removePendingRequest
          simp only [hr, hl2, hro, hstA]
          refine pendInv_remove_core s a0 oa st _ hgs hstreq ?_ rfl rfl ?_ hInv
          · rw [hgx]
            simp only [Option.some_bind]
            rw [hro]
          · intro x
            show (eraseKeyA s.pendings r.rid).any (fun p => p.2 == x) = _
            refine any_eraseKey_eq s.pendings r.rid a0 hWF.1 (hr ▸ hmem) ?_ x
            intro p hp hpv
            have := (hWF.2 p hp).2
            rw [hpv] at this
            rw [← this, hr]

theorem removePending_reqObjs (t : RMState) (ra : Nat) :
    (removePendingRequest t ra).reqObjs = t.reqObjs := by
  unfold removePendingRequest
  cases lookupA t.pendings (reqAt t ra).rid with
  | none => rfl
  | some a0 =>
    cases (reqAt t ra).owner with
    | none => rfl
    | some oa => rfl

/-- `handleCancelRequest` preserves the invariant: removing the request
from the waiting queues touches neither `pendings` nor the arenas,
`removePendingRequest` preserves it, and marking the request done does
not affect it. -/
theorem cancel_preserves_pendInv (s : RMState) (ra : Nat)
    (hWF : pendWF s) (hInv : pendInv s) (hra : ra < s.reqObjs.length)
    (hkey : ∀ a, lookupA s.pendings (reqAt s ra).rid = some a → a = ra) :
    pendInv (handleCancelRequest s ra) := by
  unfold handleCancelRequest
  have h1 := removePending_preserves_pendInv
    { s with waitHigh := s.waitHigh.filter (fun x => x ≠ ra),
             waitLow := s.waitLow.filter (fun x => x ≠ ra) } ra hWF hInv hkey
  refine done_preserves_pendInv _ ra ?_ h1
  rw [removePending_reqObjs]
  exact hra

/-- `removeStream` on a stream with an in-flight request: the request
stays in `pendings` while its owner's request pointer is cleared, so
the iff-invariant fails afterwards. -/
theorem removeStream_breaks_pendInv (s : RMState) (sa ra : Nat)
    (hsa : sa < s.streamObjs.length) (hra : ra < s.reqObjs.length)
    (hinflight : (streamAt s sa).req = some ra)
    (how : (reqAt s ra).owner = some sa)
    (hpend : pendingsHas s ra = true) :
    pendingsHas (removeStream s sa).1 ra = true
      ∧ backptr (removeStream s sa).1 ra = false := by
  unfold removeStream
  simp only [hinflight]
  constructor
  · exact hpend
  · rw [backptr]
    dsimp only [doneWithResponse]
    rw [get?_set_same _ _ _ hra]
    simp only [Option.some_bind]
    have hown : (reqAt { s with
        available := s.available.filter (fun x => x ≠ (streamAt s sa).sid),
        streams := eraseKeyA s.streams (streamAt s sa).sid,
        streamObjs := s.streamObjs.set sa { streamAt s sa with req := none } }
        ra).owner = some sa := by
      rw [reqAt]
      rw [show ({ s with
        available := s.available.filter (fun x => x ≠ (streamAt s sa).sid),
        streams := eraseKeyA s.streams (streamAt s sa).sid,
        streamObjs := s.streamObjs.set sa { streamAt s sa with req := none } }
          : RMState).reqObjs = s.reqObjs from rfl]
      rw [← reqAt]
      exact how
    rw [hown]
    simp only [Option.some_bind]
    rw [get?_set_same _ _ _ hsa]
    simp

/-- C1 (amended). The pendings/ownership invariant — a request is in
`pendings` iff its owner is non-nil and the owner's request pointer
points back to it — is preserved by `addPendingRequest` (called, as in
the event loop, on a stream with no in-flight request),
`removePendingRequest` and `handleCancelRequest` (absent a request-id
collision between distinct request objects, which `genReqID` freshness
prevents for ids that entered `pendings`); it is NOT preserved by
`removeStream`, which leaves a removed stream's in-flight request in
`pendings` with its owner's request pointer cleared. -/
theorem c1_pendings_ownership_invariant :
    (∀ s ra sa tape s', pendInv s → ra < s.reqObjs.length →
        sa < s.streamObjs.length → (streamAt s sa).req = none →
        addPendingRequest s ra sa tape = some s' → pendInv s')
    ∧ (∀ s ra, pendWF s → pendInv s →
        (∀ a, lookupA s.pendings (reqAt s ra).rid = some a → a = ra) →
        pendInv (removePendingRequest s ra))
    ∧ (∀ s ra, pendWF s → pendInv s → ra < s.reqObjs.length →
        (∀ a, lookupA s.pendings (reqAt s ra).rid = some a → a = ra) →
        pendInv (handleCancelRequest s ra))
    ∧ (∀ s sa ra, sa < s.streamObjs.length → ra < s.reqObjs.length →
        (streamAt s sa).req = some ra → (reqAt s ra).owner = some sa →
        pendingsHas s ra = true →
        pendingsHas (removeStream s sa).1 ra = true
          ∧ backptr (removeStream s sa).1 ra = false) :=
  ⟨addPending_preserves_pendInv, removePending_preserves_pendInv,
    cancel_preserves_pendInv, removeStream_breaks_pendInv⟩

/-- The empty request-manager state (all maps and queues reset). -/
def rmInit : RMState := ⟨[], [], [], [], [], [], []⟩

/-- Pop from the waiting queues, high priority first (the
`requestQueues` type is not part of the sources; modelled from the
spec: two FIFO queues, high and low priority). -/
def popWaitings (s : RMState) : Option (Nat × RMState) :=
  match s.waitHigh with
  | a :: t => some (a, { s with waitHigh := t })
  | [] =>
    match s.waitLow with
    | a :: t => some (a, { s with waitLow := t })
    | [] => none

/-- A reachable manager state: stream 1 added, one request received
and assigned to it with generated id 7 — one request in flight. -/
def cexS1 : RMState :=
  match popWaitings (handleNewRequest (addNewStream rmInit 1)).1 with
  | some (ra, s) => (addPendingRequest s ra 0 [7]).getD rmInit
  | none => rmInit

/-- Counterexample to C1 as stated: in the reachable state `cexS1`
(one stream, one in-flight request) the invariant holds; after
`removeStream` of that stream the request is still in `pendings` but
its owner's request pointer is nil, so the invariant fails —
`removeStream` does not preserve it. -/
theorem c1_counterexample :
    pendInv cexS1 ∧ pendWF cexS1
      ∧ ¬ pendInv (removeStream cexS1 0).1
      ∧ pendingsHas (removeStream cexS1 0).1 0 = true
      ∧ backptr (removeStream cexS1 0).1 0 = false := by
  refine ⟨by decide, by decide, ?_, by decide, by decide⟩
  intro h
  have h0 := h 0
  revert h0
  decide

/-- Witness for C1: the three preservation conjuncts and the
removeStream-violation conjunct, each applied at a concrete state. -/
theorem c1_pendings_ownership_invariant_witness :
    pendInv ((addPendingRequest
        ⟨[⟨0, none, false⟩], [⟨1, none⟩], [(1, 0)], [1], [], [], []⟩
        0 0 [7]).getD rmInit)
      ∧ pendInv (removePendingRequest cexS1 0)
      ∧ pendInv (handleCancelRequest cexS1 0)
      ∧ (pendingsHas (removeStream cexS1 0).1 0 = true
          ∧ backptr (removeStream cexS1 0).1 0 = false) := by
  refine ⟨?_, ?_, ?_, ?_⟩
  · exact c1_pendings_ownership_invariant.1
      ⟨[⟨0, none, false⟩], [⟨1, none⟩], [(1, 0)], [1], [], [], []⟩ 0 0 [7] _
      (by decide) (by decide) (by decide) (by decide) (by decide)
  · refine c1_pendings_ownership_invariant.2.1 cexS1 0 (by decide) (by decide) ?_
    intro a ha
    have ha2 : some 0 = some a := ha
    simpa using ha2.symm
  · refine c1_pendings_ownership_invariant.2.2.1 cexS1 0 (by decide) (by decide)
      (by decide) ?_
    intro a ha
    have ha2 : some 0 = some a := ha
    simpa using ha2.symm
  · exact c1_pendings_ownership_invariant.2.2.2 cexS1 0 0 (by decide) (by decide)
      (by decide) (by decide) (by decide)

/-! ## Staged sync engine (`staged_stream_sync.go`)

The engine state keeps the stage list, the revert and cleanup
permutations (entries may be `none`, as in `New` when an order mentions
a stage that is not in the list), the pending revert point, the
previous revert point, the invalid-block hash (as a `Nat`, `0` being
the zero hash), the current stage index and the timing log.  Stage
handlers, progress reads and `printLogs` are oracles in a `RunEnv`,
indexed by a call counter so that successive calls may behave
differently; a handler's `RevertTo` side effect is the `execRevertTo`
oracle.  A Go panic (nil dereference, out-of-range index, failing
cleanup step) is the `crash` outcome, distinct from an error return. -/

/-- Engine-level errors (which concrete Go error occurred is
irrelevant to the claims; constructors tag the source). -/
inductive EngErr
  | progressFail
  | execFail
  | revertFail
  | cleanupFail
  | cleanupProgressFail
  | stageNotFound
  | printLogsFail
  | nilRevertPoint
  | stageIndexRange
  | nilStageEntry
deriving DecidableEq, Repr

/-- A `Stage`: id and disabled flag (handlers live in the oracles). -/
structure GStage where
  id : Nat
  disabled : Bool
deriving DecidableEq, Repr

/-- A `Timing` entry (the duration is irrelevant to the claims). -/
structure GTiming where
  isRevert : Bool
  isCleanUp : Bool
  stage : Nat
deriving DecidableEq, Repr

/-- The `StagedStreamSync` fields the claims are about. -/
structure Engine where
  stages : List GStage
  revertOrder : List (Option GStage)
  pruningOrder : List (Option GStage)
  revertPoint : Option Nat
  prevRevertPoint : Option Nat
  invalidBlock : Nat
  currentStage : Nat
  timings : List GTiming
deriving DecidableEq, Repr

/-- Result of an engine step: normal value, error return, or panic. -/
inductive ERes (α : Type)
  | ok (a : α)
  | err (er : EngErr)
  | crash (er : EngErr)
deriving DecidableEq, Repr

/-- Oracles for stage handlers and the engine's external calls.  The
first argument is a call counter, threaded through the cycle. -/
structure RunEnv where
  progress : Nat → Nat → Except EngErr Nat
  execRes : Nat → Nat → Except EngErr Unit
  execRevertTo : Nat → Nat → Option (Nat × Nat)
  revertRes : Nat → Nat → Except EngErr Unit
  cleanupProgress : Nat → Nat → Except EngErr Nat
  cleanupRes : Nat → Nat → Except EngErr Unit
  printLogsRes : Except EngErr Unit

/-- `IsDone`: the forward pass is past the last stage and no revert is
pending. -/
def isDoneB (e : Engine) : Bool :=
  decide (e.stages.length ≤ e.currentStage) && e.revertPoint.isNone

/-- `SetCurrentStage`: index of the first stage with the given id;
`ErrStageNotFound` otherwise. -/
def setCurrentStage (e : Engine) (id : Nat) : Except EngErr Engine :=
  match e.stages.findIdx? (fun st => st.id == id) with
  | some i => Except.ok { e with currentStage := i }
  | none => Except.error .stageNotFound

/-- `revertStage`: look up the stage's progress; skip (no handler call,
no timing, no state change) when progress is at or below the revert
point; otherwise set the current stage, run the revert handler and
append a revert timing.  The boolean reports whether the handler ran.
Dereferencing a nil `revertPoint` would be a Go panic. -/
def revertStage (env : RunEnv) (ctr : Nat) (st : GStage) (e : Engine) :
    ERes (Engine × Nat × Bool) :=
  match env.progress ctr st.id with
  | .error er => .err er
  | .ok blockNum =>
    match e.revertPoint with
    | none => .crash .nilRevertPoint
    | some rp =>
      if blockNum ≤ rp then .ok (e, ctr + 1, false)
      else
        match setCurrentStage e st.id with
        | .error er => .err er
        | .ok e1 =>
          match env.revertRes (ctr + 1) st.id with
          | .error er => .err er
          | .ok _ =>
            .ok ({ e1 with timings := e1.timings ++ [⟨true, false, st.id⟩] },
              ctr + 2, true)

/-- The revert pass of `Run`: every non-nil, enabled entry of the
revert order is passed to `revertStage`; the first error aborts. -/
def revertLoop (env : RunEnv) :
    List (Option GStage) → Nat → Engine → ERes (Engine × Nat)
  | [], ctr, e => .ok (e, ctr)
  | entry :: rest, ctr, e =>
    match entry with
    | none => revertLoop env rest ctr e
    | some st =>
      if st.disabled then revertLoop env rest ctr e
      else
        match revertStage env ctr st e with
        | .err er => .err er
        | .crash er => .crash er
        | .ok (e1, ctr1, _) => revertLoop env rest ctr1 e1

/-- The revert block of `Run` (lines guarded by `s.revertPoint != nil`):
run the revert pass, move the revert point to `prevRevertPoint`, clear
it, compute the invalid-block-revert flag, clear `invalidBlock`, reset
the current stage to the first forward stage, and set `firstCycle`
false.  Returns (engine, counter, invalidBlockRevert, firstCycle). -/
def handleRevertBlock (env : RunEnv) (ctr : Nat) (e : Engine) :
    ERes (Engine × Nat × Bool × Bool) :=
  match revertLoop env e.revertOrder ctr e with
  | .err er => .err er
  | .crash er => .crash er
  | .ok (e1, ctr1) =>
    match ({ e1 with
        prevRevertPoint := e1.revertPoint, revertPoint := none,
        invalidBlock := 0 } : Engine).stages.get? 0 with
    | none => .crash .stageIndexRange
    | some st0 =>
      match setCurrentStage { e1 with
          prevRevertPoint := e1.revertPoint, revertPoint := none,
          invalidBlock := 0 } st0.id with
      | Except.error er => .err er
      | Except.ok e4 => .ok (e4, ctr1, e1.invalidBlock != 0, false)

/-- `runStage`: read the stage state, run the forward handler (whose
`RevertTo` side effect is the `execRevertTo` oracle), append a forward
timing. -/
def runStage (env : RunEnv) (ctr : Nat) (ibr : Bool) (st : GStage)
    (e : Engine) : Except EngErr (Engine × Nat) :=
  match env.progress ctr st.id with
  | .error er => .error er
  | .ok _ =>
    match env.execRes (ctr + 1) st.id with
    | .error er => .error er
    | .ok _ =>
      let e1 : Engine :=
        match env.execRevertTo (ctr + 1) st.id with
        | some (rp, ib) => { e with revertPoint := some rp, invalidBlock := ib }
        | none => e
      Except.ok
        ({ e1 with timings := e1.timings ++ [⟨false, false, st.id⟩] }, ctr + 2)

/-- `pruneStage`: stage state, cleanup state, set current stage, run
the cleanup handler, append a cleanup timing. -/
def pruneStage (env : RunEnv) (ctr : Nat) (st : GStage) (e : Engine) :
    Except EngErr (Engine × Nat) :=
  match env.progress ctr st.id with
  | .error er => .error er
  | .ok _ =>
    match env.cleanupProgress (ctr + 1) st.id with
    | .error er => .error er
    | .ok _ =>
      match setCurrentStage e st.id with
      | .error er => .error er
      | .ok e1 =>
        match env.cleanupRes (ctr + 2) st.id with
        | .error er => .error er
        | .ok _ =>
          Except.ok
            ({ e1 with timings := e1.timings ++ [⟨false, true, st.id⟩] },
              ctr + 3)

/-- The `cleanUp` loop: walk the cleanup order, start once the entry
matching the first forward stage is seen, skip disabled entries.  A nil
entry is dereferenced by the found-check before the nil test, a Go
panic; a failing prune step is a panic in the source. -/
def cleanUpList (env : RunEnv) (fromId : Nat) :
    List (Option GStage) → Bool → Nat → Engine → ERes (Engine × Nat)
  | [], _, _ctr, e => .ok (e, _ctr)
  | entry :: rest, found, ctr, e =>
    match entry with
    | none => .crash .nilStageEntry
    | some st =>
      if !(found || (st.id == fromId)) || st.disabled then
        cleanUpList env fromId rest (found || (st.id == fromId)) ctr e
      else
        match pruneStage env ctr st e with
        | .error er => .crash er
        | .ok (e1, ctr1) =>
          cleanUpList env fromId rest (found || (st.id == fromId)) ctr1 e1

/-- Overall cycle result. `spin` is fuel exhaustion (the Go loop would
still be running). -/
inductive RunOutcome
  | ok (e : Engine)
  | err (er : EngErr)
  | crash (er : EngErr)
  | spin
deriving DecidableEq, Repr

/-- The tail of `Run` after the forward loop: cleanup pass from stage
0, reset the current stage to the first stage's index, print logs, set
`currentStage = 0`, return nil. -/
def finishCycle (env : RunEnv) (ctr : Nat) (e : Engine) : RunOutcome :=
  match e.stages.get? 0 with
  | none => .crash .stageIndexRange
  | some stFrom =>
    match cleanUpList env stFrom.id e.pruningOrder false ctr e with
    | .err er => .err er
    | .crash er => .crash er
    | .ok (e1, _) =>
      match e1.stages.get? 0 with
      | none => .crash .stageIndexRange
      | some st0 =>
        match setCurrentStage e1 st0.id with
        | .error er => .err er
        | .ok e2 =>
          match env.printLogsRes with
          | .error er => .err er
          | .ok _ => .ok { e2 with currentStage := 0 }

/-- `Run`: while not done, handle a pending revert point and then run
(or skip, if disabled) the current stage and advance; afterwards the
cleanup pass, log printing and the final `currentStage = 0`. -/
def run (env : RunEnv) : Nat → Nat → Bool → Engine → RunOutcome
  | 0, _, _, _ => .spin
  | fuel + 1, ctr, fc, e =>
    if isDoneB e then finishCycle env ctr e
    else
      match (match e.revertPoint with
             | some _ => handleRevertBlock env ctr e
             | none => .ok (e, ctr, false, fc)) with
      | .err er => .err er
      | .crash er => .crash er
      | .ok (e1, ctr1, ibr, fc1) =>
        match e1.stages.get? e1.currentStage with
        | none => .crash .stageIndexRange
        | some stage =>
          if stage.disabled then
            run env fuel ctr1 fc1 { e1 with currentStage := e1.currentStage + 1 }
          else
            match runStage env ctr1 ibr stage e1 with
            | .error er => .err er
            | .ok (e2, ctr2) =>
              run env fuel ctr2 fc1 { e2 with currentStage := e2.currentStage + 1 }

/-! ### Engine lemmas and claims C4, C6, C9 -/

theorem setCurrentStage_fields {e : Engine} {id : Nat} {e1 : Engine}
    (h : setCurrentStage e id = Except.ok e1) :
    e1.revertPoint = e.revertPoint ∧ e1.prevRevertPoint = e.prevRevertPoint
      ∧ e1.invalidBlock = e.invalidBlock ∧ e1.stages = e.stages
      ∧ e1.timings = e.timings ∧ e1.pruningOrder = e.pruningOrder := by
  unfold setCurrentStage at h
  cases hf : e.stages.findIdx? (fun st => st.id == id) with
  | none => rw [hf] at h; exact absurd h (by simp)
  | some i =>
    rw [hf] at h
    simp only [Except.ok.injEq] at h
    subst h
    exact ⟨rfl, rfl, rfl, rfl, rfl, rfl⟩

theorem revertStage_fields {env : RunEnv} {ctr : Nat} {st : GStage}
    {e e1 : Engine} {ctr1 : Nat} {b : Bool}
    (h : revertStage env ctr st e = .ok (e1, ctr1, b)) :
    e1.revertPoint = e.revertPoint ∧ e1.prevRevertPoint = e.prevRevertPoint
      ∧ e1.invalidBlock = e.invalidBlock ∧ e1.stages = e.stages := by
  unfold revertStage at h
  split at h
  · exact absurd h (by simp)
  · split at h
    · exact absurd h (by simp)
    · split at h
      · simp only [ERes.ok.injEq, Prod.mk.injEq] at h
        obtain ⟨h1, -, -⟩ := h
        subst h1
        exact ⟨rfl, rfl, rfl, rfl⟩
      · split at h
        · exact absurd h (by simp)
        · rename_i e2 hcs
          split at h
          · exact absurd h (by simp)
          · simp only [ERes.ok.injEq, Prod.mk.injEq] at h
            obtain ⟨h1, -, -⟩ := h
            subst h1
            obtain ⟨hrv, hpv, hib, hst, -, -⟩ := setCurrentStage_fields hcs
            exact ⟨hrv, hpv, hib, hst⟩

theorem revertLoop_fields {env : RunEnv} {l : List (Option GStage)}
    {ctr : Nat} {e e1 : Engine} {ctr1 : Nat}
    (h : revertLoop env l ctr e = .ok (e1, ctr1)) :
    e1.revertPoint = e.revertPoint ∧ e1.prevRevertPoint = e.prevRevertPoint
      ∧ e1.invalidBlock = e.invalidBlock ∧ e1.stages = e.stages := by
  induction l generalizing ctr e with
  | nil =>
    unfold revertLoop at h
    simp only [ERes.ok.injEq, Prod.mk.injEq] at h
    obtain ⟨h1, -⟩ := h
    subst h1
    exact ⟨rfl, rfl, rfl, rfl⟩
  | cons entry rest ih =>
    unfold revertLoop at h
    split at h
    · exact ih h
    · split at h
      · exact ih h
      · split at h
        · exact absurd h (by simp)
        · exact absurd h (by simp)
        · rename_i e2 ctr2 b2 hrs
          obtain ⟨h1, h2, h3, h4⟩ := ih h
          obtain ⟨g1, g2, g3, g4⟩ := revertStage_fields hrs
          exact ⟨h1.trans g1, h2.trans g2, h3.trans g3, h4.trans g4⟩

theorem findIdx_head {l : List GStage} {st0 : GStage}
    (h : l.get? 0 = some st0) :
    l.findIdx? (fun st => st.id == st0.id) = some 0 := by
  cases l with
  | nil => simp at h
  | cons a t =>
    have ha : a = st0 := by simpa using h
    subst ha
    rw [List.findIdx?_cons]
    simp

/-- C6. In every execution of `Run` in which a revert point `v` is
pending, after the revert block has completed — all enabled stages in
the declared revert order passed through `revertStage` — the engine
holds `prevRevertPoint = v`, `revertPoint = nil`, a zeroed
`invalidBlock`, the current stage reset to the first forward stage,
and `firstCycle = false`; the invalid-block-revert flag handed to the
following forward execution is set exactly when the cleared
`invalidBlock` was non-zero. -/
theorem c6_revert_block_bookkeeping (env : RunEnv) (ctr : Nat)
    (e : Engine) (v : Nat) (e' : Engine) (ctr' : Nat) (ibr fc' : Bool)
    (hrp : e.revertPoint = some v)
    (h : handleRevertBlock env ctr e = .ok (e', ctr', ibr, fc')) :
    e'.prevRevertPoint = some v ∧ e'.revertPoint = none
      ∧ e'.invalidBlock = 0 ∧ e'.currentStage = 0 ∧ fc' = false
      ∧ (ibr = true ↔ e.invalidBlock ≠ 0) := by
  unfold handleRevertBlock at h
  split at h
  · exact absurd h (by simp)
  · exact absurd h (by simp)
  · rename_i a e1 ctr1 hrl
    obtain ⟨f1, -, f3, -⟩ := revertLoop_fields hrl
    split at h
    · exact absurd h (by simp)
    · rename_i st0 hg0
      have hg0' : e1.stages.get? 0 = some st0 := hg0
      have hset : setCurrentStage
          { e1 with
            prevRevertPoint := e1.revertPoint, revertPoint := none,
            invalidBlock := 0 } st0.id
          = Except.ok { e1 with
              prevRevertPoint := e1.revertPoint, revertPoint := none,
              invalidBlock := 0, currentStage := 0 } := by
        unfold setCurrentStage
        have hfi : ({ e1 with
            prevRevertPoint := e1.revertPoint, revertPoint := none,
            invalidBlock := 0 }
              : Engine).stages.findIdx? (fun st => st.id == st0.id)
            = some 0 := findIdx_head hg0'
        rw [hfi]
      rw [hset] at h
      simp only [ERes.ok.injEq, Prod.mk.injEq] at h
      obtain ⟨h1, -, h3, h4⟩ := h
      subst h1
      refine ⟨?_, rfl, rfl, rfl, h4.symm, ?_⟩
      · show e1.revertPoint = some v
        rw [f1, hrp]
      · rw [← h3, f3]
        simp [bne_iff_ne]

/-- C9. During a revert pass, a stage whose persisted progress is at or
below the pending revert point is skipped: `revertStage` returns nil
without invoking the stage's revert handler, without changing the
current stage (the engine is returned unchanged) and without appending
a timing entry. -/
theorem c9_revertStage_skips_when_progress_le (env : RunEnv) (ctr : Nat)
    (st : GStage) (e : Engine) (p v : Nat)
    (hrp : e.revertPoint = some v)
    (hprog : env.progress ctr st.id = Except.ok p)
    (hle : p ≤ v) :
    revertStage env ctr st e = .ok (e, ctr + 1, false) := by
  unfold revertStage
  simp only [hprog, hrp]
  rw [if_pos hle]

/-- Oracles used by the engine witnesses: progress 5, all calls
succeed, no handler requests a revert. -/
def envW : RunEnv :=
  ⟨fun _ _ => Except.ok 5, fun _ _ => Except.ok (), fun _ _ => none,
    fun _ _ => Except.ok (), fun _ _ => Except.ok 0,
    fun _ _ => Except.ok (), Except.ok ()⟩

theorem pruneStage_fields {env : RunEnv} {ctr : Nat} {st : GStage}
    {e e1 : Engine} {ctr1 : Nat}
    (h : pruneStage env ctr st e = Except.ok (e1, ctr1)) :
    e1.revertPoint = e.revertPoint := by
  unfold pruneStage at h
  split at h
  · exact absurd h (by simp)
  · split at h
    · exact absurd h (by simp)
    · split at h
      · exact absurd h (by simp)
      · rename_i e2 hcs
        split at h
        · exact absurd h (by simp)
        · simp only [Except.ok.injEq, Prod.mk.injEq] at h
          obtain ⟨h1, -⟩ := h
          subst h1
          exact (setCurrentStage_fields hcs).1

theorem cleanUpList_fields {env : RunEnv} {fromId : Nat}
    {l : List (Option GStage)} {found : Bool} {ctr : Nat}
    {e e1 : Engine} {ctr1 : Nat}
    (h : cleanUpList env fromId l found ctr e = .ok (e1, ctr1)) :
    e1.revertPoint = e.revertPoint := by
  induction l generalizing found ctr e with
  | nil =>
    unfold cleanUpList at h
    simp only [ERes.ok.injEq, Prod.mk.injEq] at h
    obtain ⟨h1, -⟩ := h
    subst h1
    rfl
  | cons entry rest ih =>
    unfold cleanUpList at h
    split at h
    · exact absurd h (by simp)
    · split at h
      · exact ih h
      · split at h
        · exact absurd h (by simp)
        · rename_i e2 ctr2 hps
          exact (ih h).trans (pruneStage_fields hps)

theorem finishCycle_ok {env : RunEnv} {ctr : Nat} {e e' : Engine}
    (h : finishCycle env ctr e = .ok e') :
    e'.currentStage = 0 ∧ e'.revertPoint = e.revertPoint := by
  unfold finishCycle at h
  split at h
  · exact absurd h (by simp)
  · split at h
    · exact absurd h (by simp)
    · exact absurd h (by simp)
    · rename_i e1 ctr1 hcl
      split at h
      · exact absurd h (by simp)
      · rename_i st0 hg0
        split at h
        · exact absurd h (by simp)
        · rename_i e2 hcs
          split at h
          · exact absurd h (by simp)
          · simp only [RunOutcome.ok.injEq] at h
            subst h
            refine ⟨rfl, ?_⟩
            show e2.revertPoint = e.revertPoint
            rw [(setCurrentStage_fields hcs).1, cleanUpList_fields hcl]

/-- C4. Whenever `Run` returns nil — the forward loop has reached
`IsDone`, the cleanup pass, the current-stage reset and the log
printing all succeeded — the final engine state has
`currentStage = 0` and `revertPoint = nil`. -/
theorem c4_run_nil_resets_stage_and_revert (env : RunEnv) (fuel ctr : Nat)
    (fc : Bool) (e e' : Engine) (h : run env fuel ctr fc e = .ok e') :
    e'.currentStage = 0 ∧ e'.revertPoint = none := by
  induction fuel generalizing ctr fc e with
  | zero => exact absurd h (by simp [run])
  | succ n ih =>
    rw [run] at h
    by_cases hd : isDoneB e
    · rw [if_pos hd] at h
      obtain ⟨h1, h2⟩ := finishCycle_ok h
      refine ⟨h1, h2.trans ?_⟩
      have h3 : e.revertPoint.isNone = true := by
        have h4 := hd
        unfold isDoneB at h4
        exact (Bool.and_eq_true _ _ ▸ h4).2
      exact Option.isNone_iff_eq_none.1 h3
    · rw [if_neg hd] at h
      split at h
      · exact absurd h (by simp)
      · exact absurd h (by simp)
      · split at h
        · exact absurd h (by simp)
        · split at h
          · exact ih _ _ _ h
          · split at h
            · exact absurd h (by simp)
            · exact ih _ _ _ h

/-- Engine used by the C4 witness: a single disabled stage; the cycle
runs to completion immediately. -/
def engC4 : Engine :=
  ⟨[⟨0, true⟩], [], [some ⟨0, true⟩], none, none, 0, 0, []⟩

/-- Witness for C4: a full `run` that returns nil, with final
`currentStage = 0` and `revertPoint = none`. -/
theorem c4_run_nil_resets_stage_and_revert_witness :
    run envW 3 0 true engC4 = .ok engC4
      ∧ (engC4.currentStage = 0 ∧ engC4.revertPoint = none) :=
  ⟨by decide, c4_run_nil_resets_stage_and_revert envW 3 0 true engC4 engC4
    (by decide)⟩

/-- Engine used by the C9 witness: one enabled stage, pending revert
point 10. -/
def engC9 : Engine := ⟨[⟨0, false⟩], [], [], some 10, none, 0, 0, []⟩

/-- Witness for C9: progress 5 ≤ revert point 10, so the stage is
skipped and the engine returned unchanged. -/
theorem c9_revertStage_skips_when_progress_le_witness :
    revertStage envW 0 ⟨0, false⟩ engC9 = .ok (engC9, 1, false) :=
  c9_revertStage_skips_when_progress_le envW 0 ⟨0, false⟩ engC9 5 10
    rfl rfl (by decide)

/-- Engine used by the C6 witness: pending revert point 4, empty revert
order, zero invalid block. -/
def engC6 : Engine := ⟨[⟨0, false⟩], [], [], some 4, none, 0, 0, []⟩

/-- Witness for C6: after the revert block, the revert point has moved
to `prevRevertPoint`, the current stage is back at 0, `firstCycle` and
the invalid-block flag are false (the invalid block was zero). -/
theorem c6_revert_block_bookkeeping_witness :
    (⟨[⟨0, false⟩], [], [], none, some 4, 0, 0, []⟩ : Engine).prevRevertPoint
        = some 4
      ∧ (⟨[⟨0, false⟩], [], [], none, some 4, 0, 0, []⟩ : Engine).revertPoint
        = none
      ∧ (⟨[⟨0, false⟩], [], [], none, some 4, 0, 0, []⟩ : Engine).invalidBlock
        = 0
      ∧ (⟨[⟨0, false⟩], [], [], none, some 4, 0, 0, []⟩ : Engine).currentStage
        = 0
      ∧ false = false
      ∧ (false = true ↔ engC6.invalidBlock ≠ 0) :=
  c6_revert_block_bookkeeping envW 0 engC6 4 _ 0 false false rfl (by decide)

/-! ## Bodies stage (`stage_bodies.go`, the unnamed source file)

`Exec`, `runDownloadLoop`, `runBlockWorker` and `redownloadBadBlock`
are embedded over an environment of oracles (transport results,
database reads/writes, stream counts).  Worker concurrency is
sequentialized: the producer hands each batch to a worker in turn,
which preserves each claim under study (they are per-batch / per-call
properties).  A goroutine panic (`panic(ErrReadBlockHashesFromDBFailed)`,
`panic(ErrSaveBlocksToDbFailed)`) is a `crash` outcome, distinct from
an error return.  Effects on the download manager, the transport and
the worker buckets are recorded as an action trace. -/

/-- Bodies-stage errors. -/
inductive BErr
  | txBegin
  | txCommit
  | readProgress
  | cleanDBs
  | readHashesFromDB
  | saveBlocksToDB
  | emptyHashes
  | transport (canceled : Bool)
  | nilBlockBytes
  | emptyBlockBytes
  | lenMismatch
  | invalidBlockBytes
  | notEnoughStreams
deriving DecidableEq, Repr

/-- Observable effects of the Bodies stage. -/
inductive BAction
  | getRawBlocksByHashes (n : Nat)
  | getRawBlocksByNumber
  | dmStarted
  | streamFailed (stid : Nat)
  | removeStreamT (stid : Nat)
  | handleRequestError (bns : List Nat) (stid : Nat)
  | handleRequestResult (bns : List Nat)
  | putBlocksAndSigs (bns : List Nat)
  | setDownloadDetails (stid : Nat)
  | logSaveProgressFailed
deriving DecidableEq, Repr

/-- A transport reply: raw block bytes (`none` is Go nil), commit
signature bytes and the serving stream id. -/
structure TransportBlocks where
  blockBytes : Option (List (List Nat))
  sigBytes : List (List Nat)
  stid : Nat
deriving DecidableEq, Repr

/-- Per-batch worker oracles: the `GetRawBlocksByHashes` result (an
error carries whether it is a context cancellation/deadline, plus the
stream id) and whether `saveBlocks` succeeds. -/
structure WorkerEnv where
  transport : Except (Bool × Nat) TransportBlocks
  saveOk : Bool

/-- Worker outcome: nil return, error return, or panic. -/
inductive WRes
  | ok
  | err (e : BErr)
  | crash (e : BErr)
deriving DecidableEq, Repr

/-- `runBlockWorker`: download one batch by hashes and validate the
response (non-nil, non-empty, count matches, every block longer than
one byte); on transport error mark the stream failed unless the error
is a cancellation, then report the error to the download manager; on
validation failure report and remove (or fail) the stream; on success
save blocks and signatures to the worker's buckets (a save failure is
a panic in the source) and report the result. -/
def runBlockWorker (we : WorkerEnv) (bns : List Nat) (hashes : List Nat) :
    WRes × List BAction :=
  if hashes.length = 0 then (.err .emptyHashes, [])
  else
    match we.transport with
    | .error (canceled, stid) =>
      (.err (.transport canceled),
        [.getRawBlocksByHashes hashes.length]
          ++ (if !canceled then [.streamFailed stid] else [])
          ++ [.handleRequestError bns stid])
    | .ok t =>
      match t.blockBytes with
      | none =>
        (.err .nilBlockBytes,
          [.getRawBlocksByHashes hashes.length,
            .handleRequestError bns t.stid, .streamFailed t.stid])
      | some bb =>
        if bb.length = 0 then
          (.err .emptyBlockBytes,
            [.getRawBlocksByHashes hashes.length,
              .handleRequestError bns t.stid, .removeStreamT t.stid])
        else if bb.length ≠ bns.length then
          (.err .lenMismatch,
            [.getRawBlocksByHashes hashes.length,
              .handleRequestError bns t.stid, .removeStreamT t.stid])
        else if bb.any (fun b => b.length ≤ 1) then
          (.err .invalidBlockBytes,
            [.getRawBlocksByHashes hashes.length,
              .handleRequestError bns t.stid, .removeStreamT t.stid])
        else if we.saveOk then
          (.ok,
            [.getRawBlocksByHashes hashes.length, .putBlocksAndSigs bns,
              .handleRequestResult bns])
        else (.crash .saveBlocksToDB, [.getRawBlocksByHashes hashes.length])

/-- The worker accepts a reply iff: bytes non-nil, non-empty, count
equal to the requested block numbers, every block longer than one
byte. -/
def validFetched (t : TransportBlocks) (bns : List Nat) : Bool :=
  match t.blockBytes with
  | none => false
  | some bb =>
    !(decide (bb.length = 0)) && decide (bb.length = bns.length)
      && !(bb.any (fun b => b.length ≤ 1))

/-- Modelled from the spec: the download manager partitions
`(start, target]` into batches of at most `blocks_per_request` block
numbers handed out by `get_next_batch` (the retry/result bookkeeping
is not needed by the claims under study). -/
structure DM where
  curr : Nat
  target : Nat
  bpr : Nat
deriving DecidableEq, Repr

/-- Modelled from the spec: `get_next_batch` returns the next batch of
consecutive unassigned block numbers, empty when the target height is
reached. -/
def DM.getNextBatch (dm : DM) : List Nat × DM :=
  if dm.target ≤ dm.curr then ([], dm)
  else
    ((List.range (min dm.bpr (dm.target - dm.curr))).map
        (fun i => dm.curr + 1 + i),
      { dm with curr := dm.curr + min dm.bpr (dm.target - dm.curr) })

/-- Producer-side oracles, indexed by the batch number: the
`fetchBlockHashes` read from the BlockHashes bucket, and the worker
environment serving that batch. -/
structure LoopEnv where
  fetchHashes : Nat → Except Unit (List Nat)
  worker : Nat → WorkerEnv

/-- Download-loop outcome: drained normally, panicked, or still
running (fuel exhausted). -/
inductive LoopRes
  | normal
  | crashRes (e : BErr)
  | spin
deriving DecidableEq, Repr

/-- `runDownloadLoop`: fetch batches from the download manager, look
their hashes up in the BlockHashes bucket — a failed or short lookup
is a panic in the source — and hand each batch to a worker; worker
errors are swallowed (the worker loops for the next batch), a worker
panic takes the process down. -/
def runDownloadLoop (le : LoopEnv) : Nat → Nat → DM → LoopRes × List BAction
  | 0, _, _ => (.spin, [])
  | fuel + 1, i, dm =>
    match dm.getNextBatch with
    | (batch, dm') =>
      if batch.length = 0 then (.normal, [])
      else
        match le.fetchHashes i with
        | .error _ => (.crashRes .readHashesFromDB, [])
        | .ok hashes =>
          if batch.length ≠ hashes.length then
            (.crashRes .readHashesFromDB, [])
          else
            match runBlockWorker (le.worker i) batch hashes with
            | (.crash er, acts) => (.crashRes er, acts)
            | (.ok, acts) =>
              match runDownloadLoop le fuel (i + 1) dm' with
              | (r, acts2) => (r, acts ++ acts2)
            | (.err _, acts) =>
              match runDownloadLoop le fuel (i + 1) dm' with
              | (r, acts2) => (r, acts ++ acts2)

/-- Modelled from the spec: `blocks_per_request` is a configuration
constant; its numeric value is irrelevant to the claims. -/
def BlocksPerRequest : Nat := 10

/-- Outcome of the Bodies `Exec`. -/
inductive ExecRes
  | ok
  | err (e : BErr)
  | crash (e : BErr)
  | spin
deriving DecidableEq, Repr

/-- Environment of one `Exec` call: engine flags, heights, database
and transport oracles. -/
structure ExecEnv where
  initSync : Bool
  isEpochChain : Bool
  txProvided : Bool
  beginOk : Bool
  commitOk : Bool
  maxHeight : Nat
  currentHead : Nat
  targetHeight : Nat
  readProgress : Except Unit Nat
  cleanOk : Bool
  saveProgressOk : Bool
  numStreams : Nat
  badStreamIDs : List Nat
  rawByNumber : Nat → Except (Bool × Nat) TransportBlocks
  redownloadSaveOk : Nat → Bool
  loopEnv : LoopEnv
  loopFuel : Nat
  redownloadFuel : Nat
  badBlockNumber : Nat

/-- `redownloadBadBlock`: loop until the bad block is fetched from a
stream that is not in the recorded bad-block stream set; no streams is
a fatal error; transport failures mark the stream failed (unless
cancelled) and retry; a blacklisted serving stream is marked failed
and retried; a save failure inside the `Update` retries. -/
def redownloadBadBlock (env : ExecEnv) : Nat → Nat → ExecRes × List BAction
  | 0, _ => (.spin, [])
  | fuel + 1, i =>
    if env.numStreams = 0 then (.err .notEnoughStreams, [])
    else
      match env.rawByNumber i with
      | .error (canceled, stid) =>
        match redownloadBadBlock env fuel (i + 1) with
        | (r, acts) =>
          (r, [BAction.getRawBlocksByNumber]
            ++ (if !canceled then [.streamFailed stid] else []) ++ acts)
      | .ok t =>
        if t.stid ∈ env.badStreamIDs then
          match redownloadBadBlock env fuel (i + 1) with
          | (r, acts) =>
            (r, [BAction.getRawBlocksByNumber, .streamFailed t.stid] ++ acts)
        else if env.redownloadSaveOk i then
          (.ok, [BAction.getRawBlocksByNumber, .setDownloadDetails t.stid,
            .putBlocksAndSigs [env.badBlockNumber]])
        else
          match redownloadBadBlock env fuel (i + 1) with
          | (r, acts) =>
            (r, [BAction.getRawBlocksByNumber, .setDownloadDetails t.stid]
              ++ acts)

/-- Bodies `Exec`: skip for short-range sync or the epoch chain; open
the internal transaction when none is supplied; branch to bad-block
re-download on the invalid-block-revert flag; skip when the chain head
has reached the target; read progress, clean the worker DBs on a fresh
cycle, skip when progress has reached the cycle target; otherwise run
the download loop; a `saveProgress` failure is only logged; commit. -/
def bodiesExec (env : ExecEnv) (invalidBlockRevert : Bool) :
    ExecRes × List BAction :=
  if !env.initSync then (.ok, [])
  else if env.isEpochChain then (.ok, [])
  else if !env.txProvided && !env.beginOk then (.err .txBegin, [])
  else if invalidBlockRevert then redownloadBadBlock env env.redownloadFuel 0
  else if env.maxHeight ≤ env.currentHead then (.ok, [])
  else
    match env.readProgress with
    | .error _ => (.err .readProgress, [])
    | .ok p0 =>
      if p0 ≤ env.currentHead && !env.cleanOk then (.err .cleanDBs, [])
      else if env.targetHeight
          ≤ (if p0 ≤ env.currentHead then env.currentHead else p0) then
        (.ok, [])
      else
        match runDownloadLoop env.loopEnv env.loopFuel 0
            ⟨(if p0 ≤ env.currentHead then env.currentHead else p0),
              env.targetHeight, BlocksPerRequest⟩ with
        | (.crashRes er, acts) => (.crash er, .dmStarted :: acts)
        | (.spin, acts) => (.spin, .dmStarted :: acts)
        | (.normal, acts) =>
          if !env.saveProgressOk then
            if !env.txProvided && !env.commitOk then
              (.err .txCommit, .dmStarted :: (acts ++ [.logSaveProgressFailed]))
            else (.ok, .dmStarted :: (acts ++ [.logSaveProgressFailed]))
          else if !env.txProvided && !env.commitOk then
            (.err .txCommit, .dmStarted :: acts)
          else (.ok, .dmStarted :: acts)

/-! ### Claim C5: skip conditions issue no transport call -/

/-- C5 (amended). When Bodies `Exec` is entered with the
invalid-block-revert flag clear, and the engine is not in long-range
init-sync mode, or the chain is the epoch chain, or the chain head has
reached the target height (and, in the last case, the internal
transaction opens when none was supplied), `Exec` returns nil having
performed no effect at all: no transport call, no download manager, no
worker.  (With the invalid-block-revert flag set, `Exec` branches to
the bad-block re-download before the height check — see the
counterexample.) -/
theorem c5_exec_skips_without_transport (env : ExecEnv)
    (h : env.initSync = false ∨ env.isEpochChain = true
        ∨ (env.maxHeight ≤ env.currentHead
            ∧ (env.txProvided = true ∨ env.beginOk = true))) :
    bodiesExec env false = (.ok, []) := by
  unfold bodiesExec
  rcases h with h1 | h1 | ⟨h1, h2⟩
  · simp [h1]
  · by_cases hin : env.initSync
    · simp [hin, h1]
    · simp [hin]
  · by_cases hin : env.initSync
    · by_cases hep : env.isEpochChain
      · simp [hin, hep]
      · rcases h2 with h2 | h2 <;> simp [hin, hep, h2, h1]
    · simp [hin]

/-- The C5 witness environment: init sync, not the epoch chain,
external transaction, chain head 12 at/above target 12. -/
def envC5w : ExecEnv :=
  ⟨true, false, true, true, true, 12, 12, 12, Except.ok 0, true, true, 1,
    [], fun _ => Except.error (false, 0), fun _ => true,
    ⟨fun _ => Except.ok [], fun _ => ⟨Except.error (true, 0), true⟩⟩,
    4, 4, 0⟩

/-- Witness for C5: head ≥ target, flag clear — `Exec` returns nil
with an empty effect trace. -/
theorem c5_exec_skips_without_transport_witness :
    bodiesExec envC5w false = (.ok, []) :=
  c5_exec_skips_without_transport envC5w
    (Or.inr (Or.inr ⟨by decide, Or.inl rfl⟩))

/-- The C5 counterexample environment: init sync, not the epoch chain,
head 5 above target 3, invalid-block revert pending, zero streams. -/
def envC5x : ExecEnv :=
  ⟨true, false, true, true, true, 3, 5, 3, Except.ok 0, true, true, 0,
    [], fun _ => Except.error (false, 0), fun _ => true,
    ⟨fun _ => Except.ok [], fun _ => ⟨Except.error (true, 0), true⟩⟩,
    4, 4, 7⟩

/-- Counterexample to C5 as stated: entered with the chain head (5) at
or above the target (3) but with the invalid-block-revert flag set,
`Exec` branches to the bad-block re-download before the height check
and returns a non-nil error (here: no streams), not success. -/
theorem c5_counterexample :
    envC5x.maxHeight ≤ envC5x.currentHead
      ∧ bodiesExec envC5x true = (.err .notEnoughStreams, []) :=
  ⟨by decide, by decide⟩

/-! ### Claim C2: persistent-storage failures in the Bodies stage -/

/-- C2 (amended). The three persistent-storage failures of the Bodies
stage do NOT abort the cycle by an error returned from `Exec`:
(a) a failed (or short) BlockHashes read in the download loop panics
with `ErrReadBlockHashesFromDBFailed`;
(b) a failed `saveBlocks` in a worker panics with
`ErrSaveBlocksToDbFailed`;
(c) a failed `saveProgress` is logged and swallowed — `Exec` continues
and returns nil. -/
theorem c2_storage_failures_panic_or_swallowed :
    (∀ (le : LoopEnv) (fuel i : Nat) (dm : DM) (batch : List Nat) (dm' : DM),
      dm.getNextBatch = (batch, dm') → ¬(batch.length = 0) →
      le.fetchHashes i = Except.error () →
      (runDownloadLoop le (fuel + 1) i dm).1 = .crashRes .readHashesFromDB)
    ∧ (∀ (we : WorkerEnv) (bns hashes : List Nat) (t : TransportBlocks),
      ¬(hashes.length = 0) → we.transport = Except.ok t →
      validFetched t bns = true → we.saveOk = false →
      runBlockWorker we bns hashes
        = (.crash .saveBlocksToDB, [.getRawBlocksByHashes hashes.length]))
    ∧ (∀ (env : ExecEnv) (p0 : Nat) (acts : List BAction),
      env.initSync = true → env.isEpochChain = false →
      env.txProvided = true → env.currentHead < env.maxHeight →
      env.readProgress = Except.ok p0 →
      (p0 ≤ env.currentHead → env.cleanOk = true) →
      (if p0 ≤ env.currentHead then env.currentHead else p0)
        < env.targetHeight →
      runDownloadLoop env.loopEnv env.loopFuel 0
          ⟨(if p0 ≤ env.currentHead then env.currentHead else p0),
            env.targetHeight, BlocksPerRequest⟩ = (.normal, acts) →
      env.saveProgressOk = false →
      bodiesExec env false
        = (.ok, .dmStarted :: (acts ++ [.logSaveProgressFailed]))) := by
  refine ⟨?_, ?_, ?_⟩
  · intro le fuel i dm batch dm' hget hlen herr
    unfold runDownloadLoop
    rw [hget]
    simp only [herr]
    rw [if_neg hlen]
  · intro we bns hashes t hlen htr hv hsave
    cases hbb : t.blockBytes with
    | none => rw [validFetched, hbb] at hv; exact absurd hv (by simp)
    | some bb =>
      rw [validFetched, hbb] at hv
      simp only [Bool.and_eq_true, Bool.not_eq_true', decide_eq_true_eq,
        decide_eq_false_iff_not] at hv
      obtain ⟨⟨hv1, hv2⟩, hv3⟩ := hv
      have hbns : bns ≠ [] := by
        intro hnil
        apply hv1
        rw [hv2, hnil]
        rfl
      unfold runBlockWorker
      rw [if_neg hlen]
      simp [htr, hbb, hv1, hv2, hv3, hsave, hbns]
  · intro env p0 acts hin hep htx hlt hrp hclean htgt hloop hsp
    have hcln : (decide (p0 ≤ env.currentHead) && !env.cleanOk) = false := by
      by_cases hp : p0 ≤ env.currentHead
      · simp [hp, hclean hp]
      · simp [hp]
    unfold bodiesExec
    rw [hin, hep, htx]
    simp [hrp, hcln, hloop, hsp, Nat.not_le.2 hlt, Nat.not_le.2 htgt]

/-- The C2 counterexample environment for the save-progress case:
everything succeeds except `saveProgress`. -/
def envC2x : ExecEnv :=
  ⟨true, false, true, true, true, 12, 10, 12, Except.ok 10, true, false, 1,
    [], fun _ => Except.error (false, 0), fun _ => true,
    ⟨fun _ => Except.ok [1, 2],
      fun _ => ⟨Except.ok ⟨some [[0, 1], [0, 1]], [[], []], 5⟩, true⟩⟩,
    4, 4, 0⟩

/-- The C2 counterexample environment for the read-hashes case: the
BlockHashes lookup fails on the first batch. -/
def envC2y : ExecEnv :=
  ⟨true, false, true, true, true, 12, 10, 12, Except.ok 10, true, true, 1,
    [], fun _ => Except.error (false, 0), fun _ => true,
    ⟨fun _ => Except.error (),
      fun _ => ⟨Except.ok ⟨some [[0, 1], [0, 1]], [[], []], 5⟩, true⟩⟩,
    4, 4, 0⟩

/-- Counterexample to C2 as stated: with a failing `saveProgress`
(`envC2x`), `Exec` returns nil — the failure is swallowed, not
returned; with a failing BlockHashes read (`envC2y`), the download
loop panics instead of returning an error to the engine. -/
theorem c2_counterexample :
    envC2x.saveProgressOk = false
      ∧ (bodiesExec envC2x false).1 = .ok
      ∧ (bodiesExec envC2y false).1 = .crash .readHashesFromDB :=
  ⟨rfl, by decide, by decide⟩

/-- Witness for C2: each conjunct of the amended claim applied at a
concrete input. -/
theorem c2_storage_failures_panic_or_swallowed_witness :
    (runDownloadLoop ⟨fun _ => Except.error (), fun _ => ⟨Except.error (true, 0), true⟩⟩
        1 0 ⟨10, 12, 10⟩).1 = .crashRes .readHashesFromDB
      ∧ runBlockWorker ⟨Except.ok ⟨some [[0, 1]], [[]], 5⟩, false⟩ [11] [9]
        = (.crash .saveBlocksToDB, [.getRawBlocksByHashes 1])
      ∧ bodiesExec envC2x false
        = (.ok, .dmStarted ::
            ([.getRawBlocksByHashes 2, .putBlocksAndSigs [11, 12],
              .handleRequestResult [11, 12]] ++ [.logSaveProgressFailed])) := by
  refine ⟨?_, ?_, ?_⟩
  · exact c2_storage_failures_panic_or_swallowed.1
      ⟨fun _ => Except.error (), fun _ => ⟨Except.error (true, 0), true⟩⟩
      0 0 ⟨10, 12, 10⟩ [11, 12] ⟨12, 12, 10⟩ (by decide) (by decide) rfl
  · exact c2_storage_failures_panic_or_swallowed.2.1
      ⟨Except.ok ⟨some [[0, 1]], [[]], 5⟩, false⟩ [11] [9]
      ⟨some [[0, 1]], [[]], 5⟩ (by decide) rfl (by decide) rfl
  · exact c2_storage_failures_panic_or_swallowed.2.2 envC2x 10
      [.getRawBlocksByHashes 2, .putBlocksAndSigs [11, 12],
        .handleRequestResult [11, 12]]
      rfl rfl rfl (by decide) rfl (fun _ => rfl) (by decide) (by decide) rfl

/-! ### Claim C7: the Bodies worker contract -/

/-- C7 (amended). For every batch a Bodies worker processes:
on a transport error the worker reports `HandleRequestError` with the
batch's block numbers, the error and the serving stream id, marks the
stream failed — except for context cancellation/deadline errors, where
no stream action is taken — and returns an error; on a failed
validation (nil, empty, count mismatch, or some block of length ≤ 1)
it reports `HandleRequestError` and additionally marks the stream
failed (nil bytes) or removes it (other failures), and returns an
error; only on success (and a successful save) are the blocks and
signatures written to the worker's buckets and `HandleRequestResult`
called. -/
theorem c7_worker_contract :
    (∀ (we : WorkerEnv) (bns hashes : List Nat) (c : Bool) (stid : Nat),
      ¬(hashes.length = 0) → we.transport = Except.error (c, stid) →
      runBlockWorker we bns hashes
        = (.err (.transport c),
          [.getRawBlocksByHashes hashes.length]
            ++ (if !c then [.streamFailed stid] else [])
            ++ [.handleRequestError bns stid]))
    ∧ (∀ (we : WorkerEnv) (bns hashes : List Nat) (t : TransportBlocks),
      ¬(hashes.length = 0) → we.transport = Except.ok t →
      validFetched t bns = false →
      ∃ er, runBlockWorker we bns hashes
          = (.err er, [.getRawBlocksByHashes hashes.length,
              .handleRequestError bns t.stid, .streamFailed t.stid])
        ∨ runBlockWorker we bns hashes
          = (.err er, [.getRawBlocksByHashes hashes.length,
              .handleRequestError bns t.stid, .removeStreamT t.stid]))
    ∧ (∀ (we : WorkerEnv) (bns hashes : List Nat) (t : TransportBlocks),
      ¬(hashes.length = 0) → we.transport = Except.ok t →
      validFetched t bns = true → we.saveOk = true →
      runBlockWorker we bns hashes
        = (.ok, [.getRawBlocksByHashes hashes.length,
            .putBlocksAndSigs bns, .handleRequestResult bns])) := by
  refine ⟨?_, ?_, ?_⟩
  · intro we bns hashes c stid hlen htr
    unfold runBlockWorker
    rw [if_neg hlen, htr]
  · intro we bns hashes t hlen htr hv
    obtain ⟨tb, tsig, tstid⟩ := t
    cases tb with
    | none =>
      refine ⟨.nilBlockBytes, Or.inl ?_⟩
      unfold runBlockWorker
      rw [if_neg hlen]
      simp [htr]
    | some bb =>
      simp only [validFetched] at hv
      by_cases h0 : bb.length = 0
      · refine ⟨.emptyBlockBytes, Or.inr ?_⟩
        unfold runBlockWorker
        rw [if_neg hlen]
        simp [htr, h0]
      · by_cases h1 : bb.length = bns.length
        · have h2 : bb.any (fun b => decide (b.length ≤ 1)) = true := by
            by_contra h4
            rw [Bool.not_eq_true] at h4
            rw [h4] at hv
            simp [h0] at hv
            exact hv h1
          have hbns : bns ≠ [] := by
            intro hnil
            apply h0
            rw [h1, hnil]
            rfl
          refine ⟨.invalidBlockBytes, Or.inr ?_⟩
          unfold runBlockWorker
          rw [if_neg hlen]
          simp [htr, h0, h1, h2, hbns]
        · refine ⟨.lenMismatch, Or.inr ?_⟩
          unfold runBlockWorker
          rw [if_neg hlen]
          simp [htr, h0, h1]
  · intro we bns hashes t hlen htr hv hsave
    cases hbb : t.blockBytes with
    | none => rw [validFetched, hbb] at hv; exact absurd hv (by simp)
    | some bb =>
      rw [validFetched, hbb] at hv
      simp only [Bool.and_eq_true, Bool.not_eq_true', decide_eq_true_eq,
        decide_eq_false_iff_not] at hv
      obtain ⟨⟨hv1, hv2⟩, hv3⟩ := hv
      have hbns : bns ≠ [] := by
        intro hnil
        apply hv1
        rw [hv2, hnil]
        rfl
      unfold runBlockWorker
      rw [if_neg hlen]
      simp [htr, hbb, hv1, hv2, hv3, hsave, hbns]

/-- Counterexample to C7 as stated: a context-cancelled transport
error; the worker calls `HandleRequestError` and returns, but neither
`StreamFailed` nor `RemoveStream` is invoked, contradicting
"additionally marks the stream failed or removes it". -/
theorem c7_counterexample :
    runBlockWorker ⟨Except.error (true, 5), true⟩ [1, 2] [10, 20]
      = (.err (.transport true),
          [.getRawBlocksByHashes 2, .handleRequestError [1, 2] 5])
      ∧ (∀ x, BAction.streamFailed x
          ∉ ([.getRawBlocksByHashes 2, .handleRequestError [1, 2] 5]
            : List BAction))
      ∧ (∀ x, BAction.removeStreamT x
          ∉ ([.getRawBlocksByHashes 2, .handleRequestError [1, 2] 5]
            : List BAction)) :=
  ⟨by decide, fun x => by simp, fun x => by simp⟩

/-- Witness for C7: the three conjuncts applied at concrete inputs —
a non-cancelled transport error, a count-mismatch reply, and a valid
reply that is saved. -/
theorem c7_worker_contract_witness :
    runBlockWorker ⟨Except.error (false, 3), true⟩ [1, 2] [10, 20]
      = (.err (.transport false),
          [.getRawBlocksByHashes 2]
            ++ (if !false then [.streamFailed 3] else [])
            ++ [.handleRequestError [1, 2] 3])
      ∧ (∃ er, runBlockWorker ⟨Except.ok ⟨some [[0, 1]], [[]], 4⟩, true⟩
            [1, 2] [10, 20]
          = (.err er, [.getRawBlocksByHashes 2,
              .handleRequestError [1, 2] 4, .streamFailed 4])
        ∨ runBlockWorker ⟨Except.ok ⟨some [[0, 1]], [[]], 4⟩, true⟩
            [1, 2] [10, 20]
          = (.err er, [.getRawBlocksByHashes 2,
              .handleRequestError [1, 2] 4, .removeStreamT 4]))
      ∧ runBlockWorker ⟨Except.ok ⟨some [[0, 1], [0, 1]], [[], []], 4⟩, true⟩
          [1, 2] [10, 20]
        = (.ok, [.getRawBlocksByHashes 2, .putBlocksAndSigs [1, 2],
            .handleRequestResult [1, 2]]) :=
  ⟨c7_worker_contract.1 ⟨Except.error (false, 3), true⟩ [1, 2] [10, 20]
      false 3 (by decide) rfl,
    c7_worker_contract.2.1 ⟨Except.ok ⟨some [[0, 1]], [[]], 4⟩, true⟩
      [1, 2] [10, 20] ⟨some [[0, 1]], [[]], 4⟩ (by decide) rfl (by decide),
    c7_worker_contract.2.2 ⟨Except.ok ⟨some [[0, 1], [0, 1]], [[], []], 4⟩, true⟩
      [1, 2] [10, 20] ⟨some [[0, 1], [0, 1]], [[], []], 4⟩
      (by decide) rfl (by decide) rfl⟩

/-! ## Finish stage (`stagedsync/stage_finish.go`)

The database is a map from bucket name to entries; `Exec` is modelled
with an external transaction supplied (the internal-transaction path
only adds begin/commit around the same writes).  The source ignores
the error returns of `ClearBucket`. -/

/-- A key/value database: bucket name to entries. -/
abbrev BucketDB := String → List (List Nat × List Nat)

/-- Modelled from the spec: bucket names are qualified for the beacon
shard by the engine's `is_beacon` boolean (`GetBucketName`). -/
def GetBucketName (name : String) (isBeacon : Bool) : String :=
  if isBeacon then "Beacon" ++ name else name

/-- Modelled from the spec: the logical name of the block-hash index
bucket the Bodies stage reads. -/
def BlockHashesBucketName : String := "BlockHashes"

/-- Modelled from the spec: the auxiliary extra-block-hashes bucket. -/
def ExtraBlockHashesBucketName : String := "ExtraBlockHashes"

/-- Modelled from the spec: the auxiliary downloaded-blocks bucket. -/
def DownloadedBlocksBucketName : String := "DownloadedBlocks"

/-- `tx.ClearBucket`. -/
def clearBucket (db : BucketDB) (n : String) : BucketDB :=
  fun m => if m = n then [] else db m

/-- The finish stage's `Exec`: clear the BlockHashes bucket, the
ExtraBlockHashes bucket and the DownloadedBlocks bucket, each under
its beacon-qualified name, then purge the in-memory block cache
(`purgeAllBlocksFromCache`, modelled from the spec as emptying the
cache); nothing else is touched. -/
def finishExec (isBeacon : Bool) (db : BucketDB) (_cache : List Nat) :
    BucketDB × List Nat :=
  (clearBucket (clearBucket (clearBucket db
      (GetBucketName BlockHashesBucketName isBeacon))
      (GetBucketName ExtraBlockHashesBucketName isBeacon))
      (GetBucketName DownloadedBlocksBucketName isBeacon),
    [])

/-- C10. The finish stage's `Exec` empties the BlockHashes bucket in
addition to the ExtraBlockHashes and DownloadedBlocks buckets (each
under its beacon-qualified name) and purges the in-memory block cache,
and modifies no other bucket. -/
theorem c10_finish_clears_three_buckets_only (isBeacon : Bool)
    (db : BucketDB) (cache : List Nat) :
    (finishExec isBeacon db cache).1
        (GetBucketName BlockHashesBucketName isBeacon) = []
      ∧ (finishExec isBeacon db cache).1
        (GetBucketName ExtraBlockHashesBucketName isBeacon) = []
      ∧ (finishExec isBeacon db cache).1
        (GetBucketName DownloadedBlocksBucketName isBeacon) = []
      ∧ (finishExec isBeacon db cache).2 = []
      ∧ ∀ n, n ≠ GetBucketName BlockHashesBucketName isBeacon →
          n ≠ GetBucketName ExtraBlockHashesBucketName isBeacon →
          n ≠ GetBucketName DownloadedBlocksBucketName isBeacon →
          (finishExec isBeacon db cache).1 n = db n := by
  refine ⟨?_, ?_, ?_, rfl, ?_⟩
  · cases isBeacon <;>
      simp [finishExec, clearBucket, GetBucketName, BlockHashesBucketName,
        ExtraBlockHashesBucketName, DownloadedBlocksBucketName]
  · cases isBeacon <;>
      simp [finishExec, clearBucket, GetBucketName, BlockHashesBucketName,
        ExtraBlockHashesBucketName, DownloadedBlocksBucketName]
  · cases isBeacon <;>
      simp [finishExec, clearBucket, GetBucketName, BlockHashesBucketName,
        ExtraBlockHashesBucketName, DownloadedBlocksBucketName]
  · intro n h1 h2 h3
    simp [finishExec, clearBucket, h1, h2, h3]

/-- A sample database for the C10 witness. -/
def dbC10 : BucketDB := fun _ => [([1], [2])]

/-- Witness for C10: on a concrete database the beacon-qualified
BlockHashes bucket is emptied and an unrelated bucket is untouched. -/
theorem c10_finish_clears_three_buckets_only_witness :
    (finishExec true dbC10 [5]).1
        (GetBucketName BlockHashesBucketName true) = []
      ∧ (finishExec true dbC10 [5]).1 "Other" = dbC10 "Other" :=
  ⟨(c10_finish_clears_three_buckets_only true dbC10 [5]).1,
    (c10_finish_clears_three_buckets_only true dbC10 [5]).2.2.2.2 "Other"
      (by decide) (by decide) (by decide)⟩

end HarmonySync
